import Mathlib

/-!
Verification of the rx-hotkeys event-matching and context-resolution core.

The definitions below are a shallow embedding of `src/core/hotkeys.ts` (and the
`Keys` table from the key-values module): key comparison, trigger parsing, the
sequence state machine (both the timeout `scan` path and the `bufferCount`
sliding-buffer path), the context stack/override resolver, the context gate,
the priority filters and the registration logic.
-/

/-- Shallow embedding of a DOM `KeyboardEvent`: the fields the core reads. -/
structure KeyEvent where
  key : String
  ctrlKey : Bool
  altKey : Bool
  shiftKey : Bool
  metaKey : Bool
deriving DecidableEq, Repr

/-- JavaScript `toLowerCase` on the key strings the core handles (ASCII case
mapping), written over the character list so that it evaluates in the kernel. -/
def strToLower (s : String) : String :=
  String.mk (s.data.map Char.toLower)

/-- JavaScript `toUpperCase`, over the character list. -/
def strToUpper (s : String) : String :=
  String.mk (s.data.map Char.toUpper)

/-- The whitespace characters JavaScript `trim` removes (the ones that can occur
in shortcut strings). -/
def isWsChar (c : Char) : Bool :=
  c == ' ' || c == '\t' || c == '\n' || c == '\r'

/-- JavaScript `trim`, over the character list. -/
def strTrim (s : String) : String :=
  String.mk (((s.data.dropWhile isWsChar).reverse.dropWhile isWsChar).reverse)

/-- JavaScript `includes` for a single character. -/
def strContainsChar (s : String) (c : Char) : Bool :=
  s.data.contains c

/-- Fuel-driven worker for `splitList`; the fuel is the input length, enough
because every step consumes at least one character. -/
def splitListAux (sep : List Char) : Nat → List Char → List Char → List (List Char)
  | _, cur, [] => [cur.reverse]
  | 0, cur, rest => [cur.reverse ++ rest]
  | fuel + 1, cur, c :: rest =>
    if sep ≠ [] ∧ sep.isPrefixOf (c :: rest) then
      cur.reverse :: splitListAux sep fuel [] ((c :: rest).drop sep.length)
    else
      splitListAux sep fuel (c :: cur) rest

/-- JavaScript `split(sep)` for a non-empty separator, over character lists. -/
def strSplitOn (s : String) (sep : String) : List String :=
  (splitListAux sep.data s.data.length [] s.data).map String.mk

/-- Embeds `compareKey` from hotkeys.ts: single characters compare case-insensitively,
multi-character named keys compare exactly. -/
def compareKey (eventKey : String) (configuredKey : String) : Bool :=
  if configuredKey.length = 1 ∧ eventKey.length = 1 then
    strToLower eventKey == strToLower configuredKey
  else
    eventKey == configuredKey

/-- The values of the `Keys` object (insertion order), from the key-values module. -/
def keysValues : List String :=
  ["Unidentified",
   "Alt", "AltGraph", "CapsLock", "Control", "Fn", "FnLock", "Hyper", "Meta",
   "NumLock", "ScrollLock", "Shift", "Super", "Symbol", "SymbolLock",
   "Enter", "Tab", " ",
   "ArrowDown", "ArrowLeft", "ArrowRight", "ArrowUp", "End", "Home", "PageDown", "PageUp",
   "Backspace", "Clear", "Copy", "CrSel", "Cut", "Delete", "EraseEof", "ExSel",
   "Insert", "Paste", "Redo", "Undo",
   "Accept", "Again", "Attn", "Cancel", "ContextMenu", "Escape", "Execute",
   "Find", "Finish", "Help", "Pause", "Play", "Props", "Select", "ZoomIn", "ZoomOut",
   "BrightnessDown", "BrightnessUp", "Eject", "LogOff", "Power", "PowerOff",
   "PrintScreen", "Hibernate", "Standby", "WakeUp",
   "F1", "F2", "F3", "F4", "F5", "F6", "F7", "F8", "F9", "F10",
   "F11", "F12", "F13", "F14", "F15", "F16", "F17", "F18", "F19", "F20",
   "AppSwitch", "Call", "Camera", "EndCall", "GoBack", "GoHome", "HeadsetHook",
   "MediaPlayPause", "MediaStop", "MediaTrackNext", "MediaTrackPrevious",
   "AudioVolumeDown", "AudioVolumeUp", "AudioVolumeMute",
   ".", "*", "+", "-", "/",
   "A", "B", "C", "D", "E", "F", "G", "H", "I", "J", "K", "L", "M",
   "N", "O", "P", "Q", "R", "S", "T", "U", "V", "W", "X", "Y", "Z",
   "0", "1", "2", "3", "4", "5", "6", "7", "8", "9"]

/-- Modelled from the spec: the `KeyAliases` table imported by the core from the
key-values module is not present under `src/`; the spec treats human-readable
string parsing as an external adapter layer and gives no alias list, so the
table is modelled as empty. Every claim below is independent of its contents. -/
def keyAliases : List (String × String) := []

/-- Embeds `normalizeKey` from hotkeys.ts: spacebar kept verbatim, otherwise trim and
lower-case, then alias lookup, then lookup in the `Keys` values, then a single
character is upper-cased; empty input yields no key. -/
def normalizeKey (key : String) : Option String :=
  if key = " " then some " "
  else
    let normalizedStr := strToLower (strTrim key)
    if normalizedStr = "" then none
    else
      match keyAliases.lookup normalizedStr with
      | some k => some k
      | none =>
        match keysValues.find? (fun k => strToLower k == normalizedStr) with
        | some k => some k
        | none =>
          if normalizedStr.length = 1 then some (strToUpper normalizedStr) else none

/-- A trigger object `{ key, ctrlKey?, altKey?, shiftKey?, metaKey? }`;
`none` models an absent (`undefined`) modifier field. -/
structure ObjTrigger where
  key : String
  ctrlKey : Option Bool
  altKey : Option Bool
  shiftKey : Option Bool
  metaKey : Option Bool
deriving DecidableEq, Repr

/-- One `KeyCombinationTrigger`: a bare key string shorthand or a trigger object. -/
inductive KeyTrigger where
  | str (s : String)
  | obj (t : ObjTrigger)
deriving DecidableEq, Repr

/-- The result of `_parseKeyTrigger`: the main key plus the four modifier
requirements (`none` = don't care). -/
structure ParsedTrigger where
  configuredMainKey : String
  ctrlKeyConfig : Option Bool
  altKeyConfig : Option Bool
  shiftKeyConfig : Option Bool
  metaKeyConfig : Option Bool
deriving DecidableEq, Repr

/-- Embeds `_parseKeyTrigger` from hotkeys.ts. A string shorthand is normalized and gets
all four modifier requirements set to `false`; an object keeps its (possibly
absent) modifier fields when at least one is truthy, and otherwise also gets all
four set to `false`; an empty object key fails. -/
def parseKeyTrigger : KeyTrigger → Option ParsedTrigger
  | .str s =>
    match normalizeKey s with
    | none => none
    | some finalKey => some ⟨finalKey, some false, some false, some false, some false⟩
  | .obj t =>
    if t.key = "" then none
    else
      if t.ctrlKey.getD false || t.altKey.getD false || t.shiftKey.getD false || t.metaKey.getD false then
        some ⟨t.key, t.ctrlKey, t.altKey, t.shiftKey, t.metaKey⟩
      else
        some ⟨t.key, some false, some false, some false, some false⟩

/-- Embeds `_parseCombinationString` from hotkeys.ts: lower-case, split on `+`, trim,
last part is the main key, earlier parts set modifier flags. -/
def parseCombinationString (shortcut : String) : List KeyTrigger :=
  let parts := (strSplitOn (strToLower shortcut) "+").map strTrim
  let mainKeyStr := parts.getLastD ""
  if mainKeyStr = "" then []
  else
    match normalizeKey mainKeyStr with
    | none => []
    | some finalKey =>
      let mods := parts.dropLast
      [KeyTrigger.obj ⟨finalKey,
        some (mods.any (fun p => p == "ctrl" || p == "control")),
        some (mods.any (fun p => p == "alt" || p == "option")),
        some (mods.any (fun p => p == "shift")),
        some (mods.any (fun p => p == "meta" || p == "cmd" || p == "command" || p == "win"))⟩]

/-- Embeds `_parseSequenceString` from hotkeys.ts: split on `->`, trim, normalize each
key; any unparseable key makes the whole result empty (fail fast). -/
def parseSequenceString (sequence : String) : List String :=
  let keyStrings := (strSplitOn sequence "->").map strTrim
  if keyStrings.all (fun k => (normalizeKey k).isSome) then
    keyStrings.filterMap normalizeKey
  else []

/-- The `keys` field of a `KeyCombinationConfig`: a string, a single trigger
object, or an array of triggers. -/
inductive KeysInput where
  | str (s : String)
  | obj (t : ObjTrigger)
  | arr (ts : List KeyTrigger)
deriving DecidableEq, Repr

/-- The trigger-list heuristic shared by `addCombination` and
`_shortcutMatchesEvent`: a string longer than one character containing `+` is
parsed as a combination string, otherwise the input is wrapped into a list. -/
def getKeyTriggers : KeysInput → List KeyTrigger
  | .str s => if s.length > 1 ∧ strContainsChar s '+' then parseCombinationString s else [KeyTrigger.str s]
  | .obj t => [KeyTrigger.obj t]
  | .arr ts => ts

/-- One modifier check from the combination filters: an absent requirement is a
don't-care, a present one must equal the event flag exactly. -/
def modMatch (cfg : Option Bool) (flag : Bool) : Bool :=
  match cfg with
  | none => true
  | some b => flag == b

/-- The four modifier checks of the combination filter and of
`_shortcutMatchesEvent`. -/
def modifiersMatch (p : ParsedTrigger) (ev : KeyEvent) : Bool :=
  modMatch p.ctrlKeyConfig ev.ctrlKey && modMatch p.altKeyConfig ev.altKey &&
  modMatch p.shiftKeyConfig ev.shiftKey && modMatch p.metaKeyConfig ev.metaKey

/-- Embeds `_shortcutMatchesEvent` from hotkeys.ts: some alternative trigger parses,
its key matches and every set modifier requirement matches; unparseable
alternatives are skipped. -/
def shortcutMatchesEvent (keys : KeysInput) (ev : KeyEvent) : Bool :=
  (getKeyTriggers keys).any fun t =>
    match parseKeyTrigger t with
    | none => false
    | some p => compareKey ev.key p.configuredMainKey && modifiersMatch p ev

-- --- Context resolver (stack + override) ---

/-- The context state of a `Hotkeys` instance: the context stack (bottom first,
top last, as in `contextStack$`) and the override (`none` models the
`NO_OVERRIDE` sentinel, `some v` an override set to the context value `v`,
which may itself be the null context). -/
structure CtxState where
  stack : List (Option String)
  override : Option (Option String)
deriving DecidableEq, Repr

/-- The state built by the constructor: a one-element stack holding the initial
context, and no override. -/
def initCtxState (initialContext : Option String) : CtxState :=
  ⟨[initialContext], none⟩

/-- Embeds `_resolveActiveContext` from hotkeys.ts: the override wins unless it is the
`NO_OVERRIDE` sentinel, otherwise the stack-derived context. -/
def resolveActiveContext (overrideCtx : Option (Option String)) (stackCtx : Option String) : Option String :=
  match overrideCtx with
  | some v => v
  | none => stackCtx

/-- The stack-top read used everywhere: `stack[stack.length - 1]`, or the null
context for an empty stack. -/
def stackTopCtx (stack : List (Option String)) : Option String :=
  match stack.getLast? with
  | some v => v
  | none => none

/-- Embeds `getActiveContext` from hotkeys.ts. -/
def getActiveContext (s : CtxState) : Option String :=
  resolveActiveContext s.override (stackTopCtx s.stack)

/-- Embeds `setContext` from hotkeys.ts: sets the override unconditionally. -/
def setContextOp (contextName : Option String) (s : CtxState) : CtxState :=
  ⟨s.stack, some contextName⟩

/-- The `restore` closure returned by `setContext`: clears the override only if
it still holds the value this call set. -/
def restoreOp (contextName : Option String) (s : CtxState) : CtxState :=
  if s.override = some contextName then ⟨s.stack, none⟩ else s

/-- Embeds `enterContext` from hotkeys.ts: push onto the stack. -/
def enterContextOp (contextName : Option String) (s : CtxState) : CtxState :=
  ⟨s.stack ++ [contextName], s.override⟩

/-- Embeds `leaveContext` from hotkeys.ts, acting on the stack. Returns the new stack
together with the popped value: `none` is the distinct "nothing to leave"
signal (`undefined`), `some v` means the context `v` was popped. -/
def leaveContextOp (stack : List (Option String)) : List (Option String) × Option (Option String) :=
  if stack.length ≤ 1 then (stack, none)
  else (stack.dropLast, some (stack.getLastD none))

-- --- Context gate and priority filters ---

/-- The predicate of `filterByContext` from hotkeys.ts: a rule with no explicit
context passes except that a strict one requires the null active context; a
rule with an explicit context requires exactly that active context. -/
def contextGate (context : Option String) (strict : Bool) (activeCtx : Option String) : Bool :=
  match context with
  | none => if strict then decide (activeCtx = none) else true
  | some c => decide (activeCtx = some c)

/-- Event type of a listener/config (`"keydown"` or `"keyup"`). -/
inductive EType where
  | keydown
  | keyup
deriving DecidableEq, Repr

/-- The kind-specific part of a stored shortcut config: a combination stores
its `keys` input, a sequence its `sequence` input. -/
inductive StoredCfg where
  | comb (keys : KeysInput)
  | seq (arrSeq : List String)
  | seqStr (s : String)
deriving DecidableEq, Repr

/-- One entry of the `activeShortcuts` registry: the fields of the stored
config that the matching pipeline and the priority filters read. The target is
abstracted to an identifier. -/
structure RegEntry where
  id : String
  context : Option String
  strict : Bool
  target : Nat
  etype : EType
  cfg : StoredCfg
deriving DecidableEq, Repr

/-- The configured token list of a stored sequence config, as recomputed by the
sequence priority filter: a string sequence is re-parsed, an array is used
as-is. -/
def storedSeqTokens : StoredCfg → Option (List String)
  | .comb _ => none
  | .seq l => some l
  | .seqStr s => some (parseSequenceString s)

/-- The body of the combination priority filter's suppression loop: another
registered combination shortcut, with a different id, whose explicit context
equals the active context and whose triggers match the event. -/
def suppressesComb (selfId : String) (ev : KeyEvent) (activeCtx : String) (o : RegEntry) : Bool :=
  (o.id != selfId) &&
  (match o.cfg with
   | .comb ks => shortcutMatchesEvent ks ev
   | _ => false) &&
  decide (o.context = some activeCtx)

/-- The combination priority filter from `addCombination`: non-global or strict
shortcuts always pass; a global one passes when no context is active, and is
otherwise suppressed exactly when some other registered combination with the
active context matches the event. -/
def combPriorityAllows (regs : List RegEntry) (selfId : String) (context : Option String)
    (strict : Bool) (ev : KeyEvent) (activeCtx : Option String) : Bool :=
  if context.isSome || strict then true
  else
    match activeCtx with
    | none => true
    | some c => !(regs.any (suppressesComb selfId ev c))

/-- Embeds `_areSequencesIdentical` from hotkeys.ts: equal length and equal tokens at
every position. -/
def areSequencesIdentical (seq1 seq2 : List String) : Bool :=
  if seq1.length ≠ seq2.length then false
  else (seq1.zip seq2).all fun p => p.1 == p.2

/-- The body of the sequence priority filter's suppression loop: another
registered sequence shortcut, different id, explicit context equal to the
active context, and an identical full ordered token list. -/
def suppressesSeq (selfId : String) (tokens : List String) (activeCtx : String) (o : RegEntry) : Bool :=
  (o.id != selfId) &&
  (match storedSeqTokens o.cfg with
   | some other => areSequencesIdentical tokens other
   | none => false) &&
  decide (o.context = some activeCtx)

/-- The sequence priority filter from `addSequence`, mirroring
`combPriorityAllows` but comparing full token lists. -/
def seqPriorityAllows (regs : List RegEntry) (selfId : String) (context : Option String)
    (strict : Bool) (tokens : List String) (activeCtx : Option String) : Bool :=
  if context.isSome || strict then true
  else
    match activeCtx with
    | none => true
    | some c => !(regs.any (suppressesSeq selfId tokens c))

/-- Whether a combination entry fires for a key event delivered on a given
target with a given event type and active context: the event must come from the
entry's source stream, pass the context gate, match some trigger (modifier
checks then key check, as in the per-trigger pipeline), and pass the priority
filter. Sequence entries never fire through this (combination) pipeline. -/
def combRuleFires (regs : List RegEntry) (e : RegEntry) (ev : KeyEvent)
    (evTarget : Nat) (evType : EType) (activeCtx : Option String) : Bool :=
  match e.cfg with
  | .comb keys =>
    decide (e.target = evTarget) && decide (e.etype = evType) &&
    contextGate e.context e.strict activeCtx &&
    ((getKeyTriggers keys).any fun t =>
      match parseKeyTrigger t with
      | none => false
      | some p => modifiersMatch p ev && compareKey ev.key p.configuredMainKey) &&
    combPriorityAllows regs e.id e.context e.strict ev activeCtx
  | _ => false

-- --- Sequence state machine ---

/-- The `EmitStates` enum from hotkeys.ts. -/
inductive EmitStates where
  | Emit
  | Ignore
  | InProgress
deriving DecidableEq, Repr

/-- The `SequenceScanState` accumulator of the timeout `scan` path. -/
structure SequenceScanState where
  matchedEvents : List KeyEvent
  lastEventTime : Int
  emitState : EmitStates
deriving DecidableEq, Repr

/-- One step of the `scan` accumulator in `addSequence` (the path used when a
positive `sequenceTimeoutMs` is configured): a just-emitted state is first
reset; an expired inter-press gap clears the matched prefix; then the event
either extends the prefix (emitting on full length), restarts at the first
token, or resets. -/
def scanStep (configuredSequence : List String) (sequenceTimeoutMs : Int)
    (acc : SequenceScanState) (ev : KeyEvent) (currentTime : Int) : SequenceScanState :=
  let m0 := if acc.emitState = EmitStates.Emit then ([] : List KeyEvent) else acc.matchedEvents
  let lt0 := if acc.emitState = EmitStates.Emit then (0 : Int) else acc.lastEventTime
  let matchedEvents := if 0 < m0.length ∧ sequenceTimeoutMs < currentTime - lt0 then [] else m0
  let sequenceLength := configuredSequence.length
  let nextExpectedKeyIndex := matchedEvents.length
  if sequenceLength ≤ nextExpectedKeyIndex then
    if 0 < sequenceLength ∧ compareKey ev.key (configuredSequence.getD 0 "") then
      ⟨[ev], currentTime, EmitStates.InProgress⟩
    else ⟨[], 0, EmitStates.Ignore⟩
  else
    if compareKey ev.key (configuredSequence.getD nextExpectedKeyIndex "") then
      let newMatchedEvents := matchedEvents ++ [ev]
      if newMatchedEvents.length = sequenceLength then
        ⟨newMatchedEvents, currentTime, EmitStates.Emit⟩
      else
        ⟨newMatchedEvents, currentTime, EmitStates.InProgress⟩
    else
      if 0 < sequenceLength ∧ compareKey ev.key (configuredSequence.getD 0 "") then
        ⟨[ev], currentTime, EmitStates.InProgress⟩
      else ⟨[], 0, EmitStates.Ignore⟩

/-- The seed of the `scan` accumulator. -/
def scanInit : SequenceScanState :=
  ⟨[], 0, EmitStates.Ignore⟩

/-- The list of accumulator states produced by `scan` over a timed event
stream (one state per incoming event). -/
def scanStates (seq : List String) (t : Int) (acc : SequenceScanState) :
    List (KeyEvent × Int) → List SequenceScanState
  | [] => []
  | e :: rest =>
    let s := scanStep seq t acc e.1 e.2
    s :: scanStates seq t s rest

/-- The emissions of the timeout path: the matched-event buffers of the states
that pass the `emitState === Emit` filter. -/
def scanEmissions (seq : List String) (t : Int) (events : List (KeyEvent × Int)) : List (List KeyEvent) :=
  ((scanStates seq t scanInit events).filter fun s =>
    decide (s.emitState = EmitStates.Emit)).map SequenceScanState.matchedEvents

/-- The buffers produced by `bufferCount(n, 1)` over a finite stream: one
buffer starting at every element, each holding the next `n` events (fewer at
the tail). -/
def slidingBuffers (n : Nat) : List KeyEvent → List (List KeyEvent)
  | [] => []
  | e :: rest => (e :: rest).take n :: slidingBuffers n rest

/-- The buffer filter of the no-timeout path in `addSequence`: a buffer shorter
than the sequence never matches, otherwise every event must match the token at
its position. -/
def bufferMatches (seq : List String) (events : List KeyEvent) : Bool :=
  if events.length < seq.length then false
  else (events.zip seq).all fun p => compareKey p.1.key p.2

/-- The emissions of the no-timeout (`bufferCount`) path. -/
def bufferEmissions (seq : List String) (events : List KeyEvent) : List (List KeyEvent) :=
  (slidingBuffers seq.length events).filter (bufferMatches seq)

-- --- Registration ---

/-- The `sequence` field of a `KeySequenceConfig`: an array of keys or a
`->`-separated string. -/
inductive SeqInput where
  | arr (l : List String)
  | str (s : String)
deriving DecidableEq, Repr

/-- A `KeyCombinationConfig` (the fields the registration logic reads). -/
structure CombConfig where
  id : String
  keys : KeysInput
  context : Option String
  strict : Bool
  target : Nat
  etype : EType
deriving DecidableEq, Repr

/-- A `KeySequenceConfig` (the fields the registration logic reads). -/
structure SeqConfig where
  id : String
  sequence : SeqInput
  sequenceTimeoutMs : Option Int
  context : Option String
  strict : Bool
  target : Nat
  etype : EType
deriving DecidableEq, Repr

/-- The registry entry stored for a combination config. -/
def combEntry (c : CombConfig) : RegEntry :=
  ⟨c.id, c.context, c.strict, c.target, c.etype, .comb c.keys⟩

/-- The registry entry stored for a sequence config. -/
def seqEntry (c : SeqConfig) : RegEntry :=
  ⟨c.id, c.context, c.strict, c.target, c.etype,
   match c.sequence with
   | .arr l => .seq l
   | .str s => .seqStr s⟩

/-- The result of a registration call: whether a live stream was returned
(`false` models the inert `EMPTY`), which previously registered streams were
terminated, the registry afterwards, and whether a warning was logged. -/
structure RegResult where
  registered : Bool
  terminated : List String
  registry : List RegEntry
  warned : Bool
deriving DecidableEq, Repr

/-- Embeds `_registerShortcut` from hotkeys.ts: an existing entry with the same id is
terminated (with a warning) and replaced; otherwise the entry is added. -/
def registerShortcut (regs : List RegEntry) (e : RegEntry) : List String × List RegEntry :=
  if regs.any (fun o => o.id == e.id) then
    ([e.id], (regs.filter fun o => o.id != e.id) ++ [e])
  else
    ([], regs ++ [e])

/-- Embeds `hasShortcut` from hotkeys.ts. -/
def hasShortcutModel (regs : List RegEntry) (id : String) : Bool :=
  regs.any fun o => o.id == id

/-- The registration logic of `addCombination`: resolve the trigger list; an
empty list or any unparseable trigger yields the inert stream, a warning, and
an untouched registry; otherwise the shortcut is registered. -/
def addCombinationModel (regs : List RegEntry) (c : CombConfig) : RegResult :=
  let keyTriggers := getKeyTriggers c.keys
  if keyTriggers.isEmpty then ⟨false, [], regs, true⟩
  else if keyTriggers.any (fun t => (parseKeyTrigger t).isNone) then ⟨false, [], regs, true⟩
  else
    let r := registerShortcut regs (combEntry c)
    ⟨true, r.1, r.2, !r.1.isEmpty⟩

/-- The configured sequence computed at the top of `addSequence`. -/
def configuredSeqOf : SeqInput → List String
  | .arr l => l
  | .str s => parseSequenceString s

/-- The registration logic of `addSequence`: an empty resolved sequence or an
empty token yields the inert stream, a warning, and an untouched registry;
otherwise the shortcut is registered. -/
def addSequenceModel (regs : List RegEntry) (c : SeqConfig) : RegResult :=
  let configuredSequence := configuredSeqOf c.sequence
  if configuredSequence.isEmpty then ⟨false, [], regs, true⟩
  else if configuredSequence.any (fun k => k == "") then ⟨false, [], regs, true⟩
  else
    let r := registerShortcut regs (seqEntry c)
    ⟨true, r.1, r.2, !r.1.isEmpty⟩

-- --- Shared concrete material and helper lemmas ---

/-- A key-press event with no modifiers. -/
def keyEv (k : String) : KeyEvent :=
  ⟨k, false, false, false, false⟩

/-- Rewrites an entry's target, event type and strict flag, leaving id, context
and stored config alone. -/
def retargetEntry (tgt : Nat) (et : EType) (st : Bool) (e : RegEntry) : RegEntry :=
  ⟨e.id, e.context, st, tgt, et, e.cfg⟩

/-- The global combination rule of the C10 scenario: non-strict, no context,
bound to target 0 / keydown, trigger `{key: "S"}`. -/
def c10Global : RegEntry :=
  ⟨"globalSave", none, false, 0, .keydown, .comb (.obj ⟨"S", none, none, none, none⟩)⟩

/-- The context-scoped combination rule of the C10 scenario: context "editor",
same trigger, but bound to a different target (1). -/
def c10Editor : RegEntry :=
  ⟨"editorSave", some "editor", false, 1, .keydown, .comb (.obj ⟨"S", none, none, none, none⟩)⟩

/-- The registry of the C10 scenario. -/
def c10Regs : List RegEntry := [c10Global, c10Editor]

/-- The key-press of the C10 scenario: plain "s" delivered on target 0. -/
def c10Event : KeyEvent := ⟨"s", false, false, false, false⟩

theorem compareKey_self (k : String) : compareKey k k = true := by
  unfold compareKey
  split <;> simp

-- --- Claims ---

/-- C1 (counterexample): the claim asserts that for sequence `[A, A]` the event
stream `A, A, A` emits exactly once with or without a configured timeout; on
the no-timeout (`bufferCount`) path of `addSequence` it emits twice, because
the sliding buffers `[e1, e2]` and `[e2, e3]` both match. -/
theorem c1_counterexample :
    ¬ (bufferEmissions ["A", "A"] [keyEv "a", keyEv "a", keyEv "a"]).length = 1
    ∧ (bufferEmissions ["A", "A"] [keyEv "a", keyEv "a", keyEv "a"]).length = 2 := by
  constructor
  · decide
  · decide

/-- C1 (amended): on the timeout (`scan`) path, a `Completed` (`Emit`) state is
treated as the idle initial state when the next event arrives, so for sequence
`[A, A]` the stream `A, A, A` emits exactly once; on the no-timeout
(`bufferCount`) path the sliding buffers reuse events, so the same stream emits
twice. -/
theorem c1_completed_resets :
    (∀ (seq : List String) (t : Int) (m : List KeyEvent) (lt : Int) (ev : KeyEvent) (ct : Int),
        scanStep seq t ⟨m, lt, EmitStates.Emit⟩ ev ct = scanStep seq t scanInit ev ct)
    ∧ (scanEmissions ["A", "A"] 100 [(keyEv "a", 0), (keyEv "a", 1), (keyEv "a", 2)]).length = 1
    ∧ (bufferEmissions ["A", "A"] [keyEv "a", keyEv "a", keyEv "a"]).length = 2 := by
  refine ⟨fun seq t m lt ev ct => ?_, by decide, by decide⟩
  simp [scanStep, scanInit]

/-- C5: a combination trigger that sets no modifier requirement (a bare string
shorthand, or an object with no modifier fields set) is parsed with all four
modifier requirements equal to `false`; such a trigger's filter only passes
events whose four modifier flags are all false, and in particular a rule
`{key: "s"}` does not fire for an event with `ctrlKey = true`. -/
theorem c5_no_modifiers_means_none :
    (∀ (s : String) (p : ParsedTrigger), parseKeyTrigger (.str s) = some p →
        p.ctrlKeyConfig = some false ∧ p.altKeyConfig = some false ∧
        p.shiftKeyConfig = some false ∧ p.metaKeyConfig = some false)
    ∧ (∀ k : String, k ≠ "" →
        parseKeyTrigger (.obj ⟨k, none, none, none, none⟩) =
          some ⟨k, some false, some false, some false, some false⟩)
    ∧ (∀ (p : ParsedTrigger) (ev : KeyEvent),
        p.ctrlKeyConfig = some false → p.altKeyConfig = some false →
        p.shiftKeyConfig = some false → p.metaKeyConfig = some false →
        modifiersMatch p ev = true →
        ev.ctrlKey = false ∧ ev.altKey = false ∧ ev.shiftKey = false ∧ ev.metaKey = false)
    ∧ (∀ (regs : List RegEntry) (activeCtx : Option String),
        combRuleFires regs
          ⟨"save", none, false, 0, .keydown, .comb (.obj ⟨"S", none, none, none, none⟩)⟩
          ⟨"s", true, false, false, false⟩ 0 .keydown activeCtx = false) := by
  refine ⟨fun s p h => ?_, fun k hk => ?_, fun p ev h1 h2 h3 h4 h5 => ?_, fun regs activeCtx => ?_⟩
  · cases hn : normalizeKey s with
    | none => simp [parseKeyTrigger, hn] at h
    | some fk =>
      simp only [parseKeyTrigger, hn, Option.some.injEq] at h
      subst h
      exact ⟨rfl, rfl, rfl, rfl⟩
  · simp [parseKeyTrigger, hk]
  · simp only [modifiersMatch, modMatch, h1, h2, h3, h4, Bool.and_eq_true, beq_iff_eq] at h5
    exact ⟨h5.1.1.1, h5.1.1.2, h5.1.2, h5.2⟩
  · simp [combRuleFires, getKeyTriggers, parseKeyTrigger, modifiersMatch, modMatch]

/-- C5 witness. -/
theorem c5_witness :
    parseKeyTrigger (.obj ⟨"S", none, none, none, none⟩) =
      some ⟨"S", some false, some false, some false, some false⟩ :=
  c5_no_modifiers_means_none.2.1 "S" (by decide)

/-- C6: on the timeout path, an inter-press gap strictly exceeding the
configured timeout clears the matched prefix before the incoming event is
evaluated, so the step behaves as from an idle state; concretely, for sequence
`[A, B]` with a 100 ms timeout, `A` at t=0 and `B` at t=150 never emits, while
`A` at t=0 and `B` at t=90 emits exactly once. -/
theorem c6_sequence_timeout :
    (∀ (seq : List String) (t : Int) (m : List KeyEvent) (lt : Int) (st : EmitStates)
        (ev : KeyEvent) (ct : Int),
        st ≠ EmitStates.Emit → m ≠ [] → t < ct - lt →
        scanStep seq t ⟨m, lt, st⟩ ev ct = scanStep seq t ⟨[], lt, st⟩ ev ct)
    ∧ scanEmissions ["A", "B"] 100 [(keyEv "a", 0), (keyEv "b", 150)] = []
    ∧ (scanEmissions ["A", "B"] 100 [(keyEv "a", 0), (keyEv "b", 90)]).length = 1 := by
  refine ⟨fun seq t m lt st ev ct hst hm hgap => ?_, by decide, by decide⟩
  have hcond : 0 < m.length ∧ t < ct - lt := ⟨List.length_pos.mpr hm, hgap⟩
  simp [scanStep, hst, hcond]

/-- C6 witness. -/
theorem c6_witness :
    scanStep ["A", "B"] 100 ⟨[keyEv "a"], 0, EmitStates.InProgress⟩ (keyEv "b") 150 =
      scanStep ["A", "B"] 100 ⟨[], 0, EmitStates.InProgress⟩ (keyEv "b") 150 :=
  c6_sequence_timeout.1 ["A", "B"] 100 [keyEv "a"] 0 EmitStates.InProgress (keyEv "b") 150
    (by decide) (by decide) (by decide)

/-- C7: the context gate lets a strict global rule through exactly when the
active context is null, lets a non-strict global rule through always, and
ignores the strict flag for context-scoped rules; consequently a strict global
combination entry never fires while any named context is active, and the
priority filter never suppresses a context-scoped rule either. -/
theorem c7_strict_global :
    (∀ activeCtx : Option String,
        contextGate none true activeCtx = decide (activeCtx = none))
    ∧ (∀ activeCtx : Option String, contextGate none false activeCtx = true)
    ∧ (∀ (c : String) (s1 s2 : Bool) (activeCtx : Option String),
        contextGate (some c) s1 activeCtx = contextGate (some c) s2 activeCtx)
    ∧ (∀ (regs : List RegEntry) (id : String) (tgt : Nat) (et : EType) (keys : KeysInput)
        (ev : KeyEvent) (evTarget : Nat) (evType : EType) (c : String),
        combRuleFires regs ⟨id, none, true, tgt, et, .comb keys⟩ ev evTarget evType (some c) = false)
    ∧ (∀ (regs : List RegEntry) (id : String) (c : String) (strict : Bool)
        (ev : KeyEvent) (activeCtx : Option String),
        combPriorityAllows regs id (some c) strict ev activeCtx = true) := by
  refine ⟨fun activeCtx => rfl, fun activeCtx => rfl, fun c s1 s2 activeCtx => rfl,
    fun regs id tgt et keys ev evTarget evType c => ?_, fun regs id c strict ev activeCtx => ?_⟩
  · simp [combRuleFires, contextGate]
  · simp [combPriorityAllows]

/-- C8: the context stack stays non-empty and keeps its bottom (initial)
element across enter and leave; `leaveContext` pops and returns the top when
more than one element remains, leaves a one-element stack unchanged returning
the distinct "nothing to leave" signal, and that signal differs from a popped
null context. -/
theorem c8_stack_invariants :
    (∀ (st : CtxState) (c : Option String), st.stack ≠ [] →
        (enterContextOp c st).stack ≠ [] ∧ (enterContextOp c st).stack.head? = st.stack.head?)
    ∧ (∀ s : List (Option String), s ≠ [] →
        (leaveContextOp s).1 ≠ [] ∧ (leaveContextOp s).1.head? = s.head?)
    ∧ (∀ s : List (Option String), 1 < s.length →
        leaveContextOp s = (s.dropLast, some (s.getLastD none)))
    ∧ (∀ s : List (Option String), s.length ≤ 1 → leaveContextOp s = (s, none))
    ∧ leaveContextOp [some "base", none] = ([some "base"], some none)
    ∧ leaveContextOp [some "base"] = ([some "base"], none)
    ∧ (some (none : Option String) ≠ (none : Option (Option String))) := by
  refine ⟨fun st c hne => ?_, fun s hne => ?_, fun s hlen => ?_, fun s hlen => ?_,
    by decide, by decide, by decide⟩
  · cases hs : st.stack with
    | nil => exact absurd hs hne
    | cons a as => simp [enterContextOp, hs]
  · by_cases hlen : s.length ≤ 1
    · simp [leaveContextOp, hlen, hne]
    · have h2 : 2 ≤ s.length := by omega
      cases s with
      | nil => simp at h2
      | cons a as =>
        cases as with
        | nil => simp at h2
        | cons b bs => simp [leaveContextOp, hlen]
  · simp [leaveContextOp, Nat.not_le.mpr hlen]
  · simp [leaveContextOp, hlen]

/-- C8 witness. -/
theorem c8_witness :
    leaveContextOp [none, some "a", some "b"] = ([none, some "a"], some (some "b")) :=
  c8_stack_invariants.2.2.1 [none, some "a", some "b"] (by decide)

/-- C3: `setContext` sets the override unconditionally and leaves the stack
alone; while an override is set (even an override to the null context) the
resolved active context is the override value and pushing onto the stack does
not change it; the restore closure clears the override only when it still holds
the value that call set, and otherwise changes nothing; after clearing, the
resolved context is the current stack top — in the spec's scenario, the "child"
context pushed during the override, not "parent". -/
theorem c3_override_semantics :
    (∀ (c : Option String) (st : CtxState),
        (setContextOp c st).override = some c ∧ (setContextOp c st).stack = st.stack)
    ∧ (∀ (v : Option String) (stack : List (Option String)) (c : Option String),
        getActiveContext ⟨stack, some v⟩ = v
        ∧ getActiveContext (enterContextOp c ⟨stack, some v⟩) = v)
    ∧ (∀ (c : Option String) (st : CtxState), st.override = some c →
        restoreOp c st = ⟨st.stack, none⟩)
    ∧ (∀ (c : Option String) (st : CtxState), st.override ≠ some c → restoreOp c st = st)
    ∧ (getActiveContext (enterContextOp (some "child") (setContextOp (some "override")
          (enterContextOp (some "parent") (initCtxState none)))) = some "override"
      ∧ getActiveContext (restoreOp (some "override")
          (enterContextOp (some "child") (setContextOp (some "override")
            (enterContextOp (some "parent") (initCtxState none))))) = some "child") := by
  refine ⟨fun c st => ⟨rfl, rfl⟩, fun v stack c => ⟨rfl, rfl⟩, fun c st h => ?_,
    fun c st h => ?_, by decide, by decide⟩
  · simp [restoreOp, h]
  · simp [restoreOp, h]

/-- C3 witness. -/
theorem c3_witness :
    restoreOp (some "m") ⟨[none], some (some "m")⟩ = ⟨[none], none⟩ :=
  c3_override_semantics.2.2.1 (some "m") ⟨[none], some (some "m")⟩ (by decide)

/-- An invalid combination config (empty trigger list or an unparseable
trigger) makes `addCombination` return the inert stream with a warning,
terminating nothing and leaving the registry untouched. -/
theorem addCombinationModel_invalid (regs : List RegEntry) (c : CombConfig)
    (h : getKeyTriggers c.keys = [] ∨ ∃ tr ∈ getKeyTriggers c.keys, parseKeyTrigger tr = none) :
    addCombinationModel regs c = ⟨false, [], regs, true⟩ := by
  by_cases he : (getKeyTriggers c.keys).isEmpty
  · simp [addCombinationModel, he]
  · rcases h with h | ⟨tr, htr, hp⟩
    · exact absurd (by simp [h]) he
    · have ha : (getKeyTriggers c.keys).any (fun t => (parseKeyTrigger t).isNone) = true :=
        List.any_eq_true.mpr ⟨tr, htr, by simp [hp]⟩
    
      simp [addCombinationModel, he, ha]

/-- An invalid sequence config (empty resolved sequence or an empty token)
makes `addSequence` return the inert stream with a warning, terminating nothing
and leaving the registry untouched. -/
theorem addSequenceModel_invalid (regs : List RegEntry) (c : SeqConfig)
    (h : configuredSeqOf c.sequence = [] ∨ ∃ k ∈ configuredSeqOf c.sequence, k = "") :
    addSequenceModel regs c = ⟨false, [], regs, true⟩ := by
  by_cases he : (configuredSeqOf c.sequence).isEmpty
  · simp [addSequenceModel, he]
  · rcases h with h | ⟨k, hk, hke⟩
    · exact absurd (by simp [h]) he
    · have ha : (configuredSeqOf c.sequence).any (fun k => k == "") = true :=
        List.any_eq_true.mpr ⟨k, hk, by simp [hke]⟩
      simp [addSequenceModel, he, ha]

/-- C9: a registration whose configuration is invalid (empty or unparseable
trigger list for a combination; empty or invalid sequence) returns the inert
stream with a warning, terminates no existing stream, and leaves the registry
exactly as it was — so `hasShortcut` is unchanged for every id: false for a
fresh id, and still true (with the stream unterminated) for an id that was
already registered. -/
theorem c9_invalid_registration_inert :
    (∀ (regs : List RegEntry) (c : CombConfig),
        (getKeyTriggers c.keys = [] ∨ ∃ tr ∈ getKeyTriggers c.keys, parseKeyTrigger tr = none) →
        addCombinationModel regs c = ⟨false, [], regs, true⟩)
    ∧ (∀ (regs : List RegEntry) (c : SeqConfig),
        (configuredSeqOf c.sequence = [] ∨ ∃ k ∈ configuredSeqOf c.sequence, k = "") →
        addSequenceModel regs c = ⟨false, [], regs, true⟩)
    ∧ (∀ (regs : List RegEntry) (c : CombConfig) (i : String),
        (getKeyTriggers c.keys = [] ∨ ∃ tr ∈ getKeyTriggers c.keys, parseKeyTrigger tr = none) →
        hasShortcutModel (addCombinationModel regs c).registry i = hasShortcutModel regs i)
    ∧ (∀ (regs : List RegEntry) (c : SeqConfig) (i : String),
        (configuredSeqOf c.sequence = [] ∨ ∃ k ∈ configuredSeqOf c.sequence, k = "") →
        hasShortcutModel (addSequenceModel regs c).registry i = hasShortcutModel regs i) := by
  refine ⟨addCombinationModel_invalid, addSequenceModel_invalid,
    fun regs c i h => ?_, fun regs c i h => ?_⟩
  · rw [addCombinationModel_invalid regs c h]
  · rw [addSequenceModel_invalid regs c h]

/-- C9 witness: registering an id that is already present with an unparseable
(empty-string) trigger leaves the old entry registered and unterminated. -/
theorem c9_witness :
    addCombinationModel [⟨"old", none, false, 0, .keydown, .comb (.obj ⟨"A", none, none, none, none⟩)⟩]
        ⟨"old", .str "", none, false, 0, .keydown⟩ =
      ⟨false, [],
        [⟨"old", none, false, 0, .keydown, .comb (.obj ⟨"A", none, none, none, none⟩)⟩], true⟩ :=
  c9_invalid_registration_inert.1
    [⟨"old", none, false, 0, .keydown, .comb (.obj ⟨"A", none, none, none, none⟩)⟩]
    ⟨"old", .str "", none, false, 0, .keydown⟩
    (Or.inr ⟨.str "", by decide, by decide⟩)

/-- Elementwise equality of zipped lists of equal length is list equality. -/
theorem zip_all_beq_iff (s t : List String) (hl : s.length = t.length) :
    ((s.zip t).all fun p => p.1 == p.2) = true ↔ s = t := by
  induction s generalizing t with
  | nil =>
    cases t with
    | nil => simp
    | cons b bs => simp at hl
  | cons a as ih =>
    cases t with
    | nil => simp at hl
    | cons b bs =>
      simp only [List.zip_cons_cons, List.all_cons, Bool.and_eq_true, beq_iff_eq,
        List.cons.injEq]
      have hl' : as.length = bs.length := by simpa using hl
      rw [ih bs hl']

/-- The embedded `_areSequencesIdentical` decides exactly list equality. -/
theorem areSequencesIdentical_eq_true_iff (s t : List String) :
    areSequencesIdentical s t = true ↔ s = t := by
  by_cases hl : s.length = t.length
  · unfold areSequencesIdentical
    rw [if_neg (by simp [hl]), zip_all_beq_iff s t hl]
  · unfold areSequencesIdentical
    rw [if_pos (by simp [hl])]
    simp only [Bool.false_eq_true, false_iff]
    intro h
    exact hl (by rw [h])

/-- The combination-kind case split of the suppression loop. -/
theorem combCase_eq_true_iff (cfg : StoredCfg) (ev : KeyEvent) :
    (match cfg with
     | .comb ks => shortcutMatchesEvent ks ev
     | _ => false) = true ↔ ∃ ks, cfg = .comb ks ∧ shortcutMatchesEvent ks ev = true := by
  cases cfg <;> simp

/-- The sequence-kind case split of the suppression loop. -/
theorem seqCase_eq_true_iff (cfg : StoredCfg) (tokens : List String) :
    (match storedSeqTokens cfg with
     | some other => areSequencesIdentical tokens other
     | none => false) = true ↔
      ∃ tk, storedSeqTokens cfg = some tk ∧ tk = tokens := by
  cases h : storedSeqTokens cfg with
  | none => simp
  | some tk =>
    simp only [Option.some.injEq, areSequencesIdentical_eq_true_iff]
    constructor
    · intro he
      exact ⟨tk, rfl, he.symm⟩
    · rintro ⟨tk2, h2, h3⟩
      exact (h2.trans h3).symm

/-- One suppression-loop body for combinations, as a proposition. -/
theorem suppressesComb_eq_true_iff (selfId : String) (ev : KeyEvent) (c : String) (o : RegEntry) :
    suppressesComb selfId ev c o = true ↔
      o.id ≠ selfId ∧ o.context = some c ∧
        ∃ ks, o.cfg = .comb ks ∧ shortcutMatchesEvent ks ev = true := by
  simp only [suppressesComb, Bool.and_eq_true, bne_iff_ne, ne_eq, decide_eq_true_eq,
    combCase_eq_true_iff]
  tauto

/-- One suppression-loop body for sequences, as a proposition. -/
theorem suppressesSeq_eq_true_iff (selfId : String) (tokens : List String) (c : String) (o : RegEntry) :
    suppressesSeq selfId tokens c o = true ↔
      o.id ≠ selfId ∧ o.context = some c ∧
        ∃ tk, storedSeqTokens o.cfg = some tk ∧ tk = tokens := by
  simp only [suppressesSeq, Bool.and_eq_true, bne_iff_ne, ne_eq, decide_eq_true_eq,
    seqCase_eq_true_iff]
  tauto

/-- C2: a non-strict global rule evaluated while a named context is active is
suppressed by the priority filter exactly when some other registered rule of
the same kind with an explicit context equal to the active context would also
match — for combinations a per-trigger match of the event (which coincides with
the trigger check of the firing pipeline), for sequences an identical full
ordered token list. -/
theorem c2_priority_suppression_iff :
    (∀ (regs : List RegEntry) (selfId : String) (ev : KeyEvent) (c : String),
        (combPriorityAllows regs selfId none false ev (some c) = false ↔
          ∃ o ∈ regs, o.id ≠ selfId ∧ o.context = some c ∧
            ∃ ks, o.cfg = .comb ks ∧ shortcutMatchesEvent ks ev = true))
    ∧ (∀ (regs : List RegEntry) (selfId : String) (tokens : List String) (c : String),
        (seqPriorityAllows regs selfId none false tokens (some c) = false ↔
          ∃ o ∈ regs, o.id ≠ selfId ∧ o.context = some c ∧
            ∃ tk, storedSeqTokens o.cfg = some tk ∧ tk = tokens))
    ∧ (∀ (ks : KeysInput) (ev : KeyEvent),
        shortcutMatchesEvent ks ev =
          (getKeyTriggers ks).any fun tr =>
            match parseKeyTrigger tr with
            | none => false
            | some p => modifiersMatch p ev && compareKey ev.key p.configuredMainKey) := by
  refine ⟨fun regs selfId ev c => ?_, fun regs selfId tokens c => ?_, fun ks ev => ?_⟩
  · have hred : combPriorityAllows regs selfId none false ev (some c) =
        !(regs.any (suppressesComb selfId ev c)) := rfl
    rw [hred, Bool.not_eq_false', List.any_eq_true]
    exact exists_congr fun o => by rw [suppressesComb_eq_true_iff]
  · have hred : seqPriorityAllows regs selfId none false tokens (some c) =
        !(regs.any (suppressesSeq selfId tokens c)) := rfl
    rw [hred, Bool.not_eq_false', List.any_eq_true]
    exact exists_congr fun o => by rw [suppressesSeq_eq_true_iff]
  · simp only [shortcutMatchesEvent]
    congr 1
    funext tr
    cases parseKeyTrigger tr with
    | none => rfl
    | some p => simp [Bool.and_comm]


/-- C10: the combination priority filter reads only the other rule's id, kind,
context and triggers — uniformly rewriting every entry's target, event type and
strict flag never changes its verdict; hence a context rule bound to a
different target still suppresses a non-strict global rule for an event it can
never itself receive, and that event then fires no rule at all: in the
scenario, the global rule passes its gate and trigger check but is suppressed,
the editor rule never sees the event, and no registered rule fires. -/
theorem c10_suppression_ignores_target :
    (∀ (regs : List RegEntry) (selfId : String) (context : Option String) (strict : Bool)
        (ev : KeyEvent) (activeCtx : Option String) (tgt : Nat) (et : EType) (st : Bool),
        combPriorityAllows (regs.map (retargetEntry tgt et st)) selfId context strict ev activeCtx =
          combPriorityAllows regs selfId context strict ev activeCtx)
    ∧ contextGate c10Global.context c10Global.strict (some "editor") = true
    ∧ shortcutMatchesEvent (.obj ⟨"S", none, none, none, none⟩) c10Event = true
    ∧ combPriorityAllows c10Regs "globalSave" none false c10Event (some "editor") = false
    ∧ combRuleFires c10Regs c10Global c10Event 0 .keydown (some "editor") = false
    ∧ combRuleFires c10Regs c10Editor c10Event 0 .keydown (some "editor") = false
    ∧ (c10Regs.all fun e => !(combRuleFires c10Regs e c10Event 0 .keydown (some "editor"))) = true := by
  refine ⟨fun regs selfId context strict ev activeCtx tgt et st => ?_,
    by decide, by decide, by decide, by decide, by decide, by decide⟩
  cases hcs : (context.isSome || strict) with
  | true => simp [combPriorityAllows, hcs]
  | false =>
    cases activeCtx with
    | none => simp [combPriorityAllows, hcs]
    | some c =>
      simp only [combPriorityAllows, hcs, Bool.false_eq_true, if_false, List.any_map]
      rfl

/-- C4: on an event that mismatches the next expected token, the scan state
machine resets and re-anchors when the event matches the sequence's first
token; consequently, for any sequence `[K1, K2, K3]` and any key `K9` matching
none of its tokens, the stream `K1, K9, K1, K2, K3` emits exactly once on both
the timeout and the buffer path, and the stream `K1, K2, K9` never emits on
either path. -/
theorem c4_mismatch_reanchors :
    (∀ (seq : List String) (t : Int) (m : List KeyEvent) (lt : Int) (st : EmitStates)
        (ev : KeyEvent) (ct : Int),
        st ≠ EmitStates.Emit → ¬(0 < m.length ∧ t < ct - lt) → m.length < seq.length →
        compareKey ev.key (seq.getD m.length "") = false →
        compareKey ev.key (seq.getD 0 "") = true →
        scanStep seq t ⟨m, lt, st⟩ ev ct = ⟨[ev], ct, EmitStates.InProgress⟩)
    ∧ (∀ (k1 k2 k3 k9 : String) (t : Int), 0 ≤ t →
        compareKey k9 k1 = false → compareKey k9 k2 = false → compareKey k9 k3 = false →
        (scanEmissions [k1, k2, k3] t
            [(keyEv k1, 0), (keyEv k9, 0), (keyEv k1, 0), (keyEv k2, 0), (keyEv k3, 0)]).length = 1
        ∧ (scanEmissions [k1, k2, k3] t [(keyEv k1, 0), (keyEv k2, 0), (keyEv k9, 0)]).length = 0
        ∧ (bufferEmissions [k1, k2, k3]
            [keyEv k1, keyEv k9, keyEv k1, keyEv k2, keyEv k3]).length = 1
        ∧ (bufferEmissions [k1, k2, k3] [keyEv k1, keyEv k2, keyEv k9]).length = 0) := by
  constructor
  · intro seq t m lt st ev ct hst hto hlt hmis hfirst
    have h0 : 0 < seq.length := Nat.lt_of_le_of_lt (Nat.zero_le _) hlt
    have hmis2 : compareKey ev.key ((seq[m.length]?).getD "") = false := by
      rw [← List.getD_eq_getElem?_getD]
      exact hmis
    have hg : seq.getD 0 "" = seq[0] := by
      rw [List.getD_eq_getElem?_getD, List.getElem?_eq_getElem h0]
      rfl
    have hfirst2 : compareKey ev.key seq[0] = true := by
      rw [← hg]
      exact hfirst
    simp [scanStep, hst, hto, Nat.not_le.mpr hlt, h0, hmis2, hfirst2]
  · intro k1 k2 k3 k9 t ht h91 h92 h93
    have hnt : ¬ t < (0 : Int) := by omega
    have s1 : scanStep [k1, k2, k3] t ⟨[], 0, EmitStates.Ignore⟩ (keyEv k1) 0 =
        ⟨[keyEv k1], 0, EmitStates.InProgress⟩ := by
      simp [scanStep, keyEv, compareKey_self]
    have s2 : scanStep [k1, k2, k3] t ⟨[keyEv k1], 0, EmitStates.InProgress⟩ (keyEv k9) 0 =
        ⟨[], 0, EmitStates.Ignore⟩ := by
      simp [scanStep, keyEv, hnt, h92, h91]
    have s4 : scanStep [k1, k2, k3] t ⟨[keyEv k1], 0, EmitStates.InProgress⟩ (keyEv k2) 0 =
        ⟨[keyEv k1, keyEv k2], 0, EmitStates.InProgress⟩ := by
      simp [scanStep, keyEv, hnt, compareKey_self]
    have s5 : scanStep [k1, k2, k3] t ⟨[keyEv k1, keyEv k2], 0, EmitStates.InProgress⟩ (keyEv k3) 0 =
        ⟨[keyEv k1, keyEv k2, keyEv k3], 0, EmitStates.Emit⟩ := by
      simp [scanStep, keyEv, hnt, compareKey_self]
    have s6 : scanStep [k1, k2, k3] t ⟨[keyEv k1, keyEv k2], 0, EmitStates.InProgress⟩ (keyEv k9) 0 =
        ⟨[], 0, EmitStates.Ignore⟩ := by
      simp [scanStep, keyEv, hnt, h93, h91]
    refine ⟨?_, ?_, ?_, ?_⟩
    · simp only [scanEmissions, scanStates, scanInit, s1, s2, s4, s5]
      simp
    · simp only [scanEmissions, scanStates, scanInit, s1, s4, s6]
      simp
    · simp [bufferEmissions, slidingBuffers, bufferMatches, keyEv, compareKey_self, h91, h92, h93]
    · simp [bufferEmissions, slidingBuffers, bufferMatches, keyEv, compareKey_self, h91, h92, h93]

/-- C4 witness. -/
theorem c4_witness :
    (scanEmissions ["a", "b", "c"] 100
        [(keyEv "a", 0), (keyEv "x", 0), (keyEv "a", 0), (keyEv "b", 0), (keyEv "c", 0)]).length = 1 :=
  (c4_mismatch_reanchors.2 "a" "b" "c" "x" 100 (by decide)
    (by decide) (by decide) (by decide)).1
